import Mathlib

/-!
Shallow embedding of the Snake-lite core game logic (the `SnakeGame` class):
grid points, direction buffering, the per-tick `update` step, collision
detection, apple placement by rejection sampling, difficulty scheduling,
high-score handling and the timeout-based game loop's scheduling behaviour.
Randomness (apple draws) is modelled by an explicit list of draws, and the
rejection-sampling loop by `List.find?`, so a call that would loop forever on
a saturated board returns `none`.
-/

namespace Snake

/-- Grid coordinate pair, in cell units (source `interface Point`).
Coordinates are integers: the prospective head may step to -1 before the
wall check rejects it. -/
structure Point where
  x : Int
  y : Int
deriving DecidableEq, Repr

/-- The four movement directions (source strings 'up' 'down' 'left' 'right'). -/
inductive Direction where
  | up
  | down
  | left
  | right
deriving DecidableEq, Repr, Fintype

/-- The 180-degree reversal of a direction (the direction the keydown handler
guards against for each arrow key). -/
def Direction.opposite : Direction → Direction
  | .up => .down
  | .down => .up
  | .left => .right
  | .right => .left

/-- Tuning constants (source `interface GameConfig`). -/
structure GameConfig where
  gridSize : Nat
  initialSpeed : Nat
  minSpeed : Nat
  speedDecrement : Nat
deriving Repr

/-- The fixed configuration (source `CONFIG`). -/
def CONFIG : GameConfig :=
  { gridSize := 20, initialSpeed := 200, minSpeed := 50, speedDecrement := 5 }

/-- The logical fields of the `SnakeGame` instance: snake body (head first),
apple position, committed and pending direction, score, high score, speed. -/
structure GameState where
  snake : List Point
  apple : Point
  direction : Direction
  nextDirection : Direction
  score : Nat
  highScore : Nat
  speed : Nat
deriving DecidableEq, Repr

/-- Keydown handler body from `initInput`: given the committed `direction`
and current `nextDirection`, an arrow-key request updates `nextDirection`
unless the committed direction is the exact opposite of the request. -/
def handleKey (direction : Direction) (nextDirection : Direction) :
    Direction → Direction
  | .up => if direction ≠ .down then .up else nextDirection
  | .down => if direction ≠ .up then .down else nextDirection
  | .left => if direction ≠ .right then .left else nextDirection
  | .right => if direction ≠ .left then .right else nextDirection

/-- Difficulty update on apple consumption (source `increaseDifficulty`):
subtract `speedDecrement` from the delay only while above `minSpeed`. -/
def increaseDifficulty (speed : Nat) : Nat :=
  if CONFIG.minSpeed < speed then speed - CONFIG.speedDecrement else speed

/-- One tick's effect on the speed value: `increaseDifficulty` exactly when
an apple was consumed that tick, identity otherwise. -/
def tickSpeed (speed : Nat) (ate : Bool) : Nat :=
  if ate then increaseDifficulty speed else speed

/-- Speed after a session's sequence of ticks (each entry records whether the
tick consumed an apple), starting from `CONFIG.initialSpeed` as `resetGame`
sets it. -/
def speedAfter (ticks : List Bool) : Nat :=
  ticks.foldl tickSpeed CONFIG.initialSpeed

/-- Game-over high-score bookkeeping (source `handleGameOver`, lines
226-230): given the session score, the in-memory high score and the value in
the external store, return the new in-memory high score, the new store
value, and whether a store write (`localStorage.setItem`) happened. -/
def handleGameOver (score highScore stored : Nat) : Nat × Nat × Bool :=
  if highScore < score then (score, score, true) else (highScore, stored, false)

/-- Membership test against the body used both by `checkSelfCollision` and by
the rejection test inside `placeApple` (source
`segment.x === x && segment.y === y` under `.some`). -/
def onBody (body : List Point) (p : Point) : Bool :=
  body.any fun segment => segment.x == p.x && segment.y == p.y

/-- Self-collision check (source `checkSelfCollision`): whether the
prospective head coincides with any current body segment. -/
def checkSelfCollision (head : Point) (snake : List Point) : Bool :=
  onBody snake head

/-- Apple placement by rejection sampling (source `placeApple`): scan the
stream of random draws for the first cell not on the snake. The unbounded
`while` loop is modelled on a finite draw list, so exhaustion yields `none`. -/
def placeApple (snake : List Point) (draws : List Point) : Option Point :=
  draws.find? fun p => !(onBody snake p)

/-- Unit-vector displacement of the committed direction (the `switch` on
`this.direction` in `update` that moves the copied head one cell). -/
def stepDir (d : Direction) (p : Point) : Point :=
  match d with
  | .up => ⟨p.x, p.y - 1⟩
  | .down => ⟨p.x, p.y + 1⟩
  | .left => ⟨p.x - 1, p.y⟩
  | .right => ⟨p.x + 1, p.y⟩

/-- The prospective head of a tick: the current head (`this.snake[0]`) moved
one cell along the direction committed at the start of the tick
(`this.direction = this.nextDirection`). The default for an empty body is
never reached while the non-emptiness invariant holds. -/
def prospectiveHead (g : GameState) : Point :=
  stepDir g.nextDirection (g.snake.headD ⟨0, 0⟩)

/-- Wall-collision test from `update`: outside `[0, W) × [0, H)` in cell
units, where `W`/`H` are `canvas.width / gridSize` and
`canvas.height / gridSize`. -/
def wallHit (W H : Int) (p : Point) : Bool :=
  decide (p.x < 0) || decide (W ≤ p.x) || decide (p.y < 0) || decide (H ≤ p.y)

/-- Result of one tick: either the game-over branch was taken (carrying the
state handed to `handleGameOver`) or the session continues with a new state. -/
inductive TickOutcome where
  | over (g : GameState)
  | cont (g : GameState)
deriving DecidableEq, Repr

/-- One tick of the game (source `update`): commit the pending direction,
compute the prospective head, classify wall/self collision against the
pre-truncation body (game over before any other mutation), otherwise
prepend the head; on apple consumption bump the score, respawn the apple
(checking against the body that already includes the new head) and update
the speed; otherwise remove the tail. `none` only when the apple respawn
exhausts the draw stream. -/
def update (W H : Int) (g : GameState) (draws : List Point) : Option TickOutcome :=
  let dir := g.nextDirection
  let head' := prospectiveHead g
  if wallHit W H head' || checkSelfCollision head' g.snake then
    some (.over { g with direction := dir })
  else
    let snake1 := head' :: g.snake
    if head' = g.apple then
      match placeApple snake1 draws with
      | some a =>
          some (.cont
            { g with
                direction := dir, snake := snake1, apple := a,
                score := g.score + 1, speed := increaseDifficulty g.speed })
      | none => none
    else
      some (.cont { g with direction := dir, snake := snake1.dropLast })

/-- The state produced by the apple-consuming branch of `update`: direction
committed, prospective head prepended with no tail removal, score bumped,
apple re-placed at `a`, speed updated. -/
def eatResult (g : GameState) (a : Point) : GameState :=
  { g with
      direction := g.nextDirection, snake := prospectiveHead g :: g.snake, apple := a,
      score := g.score + 1, speed := increaseDifficulty g.speed }

/-- The state produced by the plain-move branch of `update`: direction
committed, prospective head prepended and the tail element popped. -/
def moveResult (g : GameState) : GameState :=
  { g with
      direction := g.nextDirection, snake := (prospectiveHead g :: g.snake).dropLast }

/-- Session re-initialization (source `resetGame`): single starting segment
at (3,1), direction and pending direction `right`, score 0, speed
`initialSpeed`, apple re-placed against the fresh body. The high score is
untouched. (The timeout bookkeeping of `resetGame` is modelled separately
by `fireGameOverTick`.) -/
def resetGame (highScore : Nat) (draws : List Point) : Option GameState :=
  let snake0 : List Point := [⟨3, 1⟩]
  match placeApple snake0 draws with
  | some a =>
      some
        { snake := snake0, apple := a, direction := .right, nextDirection := .right,
          score := 0, highScore := highScore, speed := CONFIG.initialSpeed }
  | none => none

/-- State of the browser timeout scheduler as the game uses it: the ids of
scheduled-but-unfired timeouts, the next fresh id, and the value of the
`gameLoopTimeout` field. -/
structure SchedState where
  pending : List Nat
  nextId : Nat
  gameLoopTimeout : Option Nat
deriving DecidableEq, Repr

/-- `setTimeout`: schedule a fresh timeout and return its id. -/
def schedSetTimeout (st : SchedState) : SchedState × Nat :=
  ({ st with pending := st.pending ++ [st.nextId], nextId := st.nextId + 1 }, st.nextId)

/-- `clearTimeout h`: remove `h` from the pending set if still pending;
a no-op on an id that already fired. -/
def schedClearTimeout (st : SchedState) (h : Nat) : SchedState :=
  { st with pending := st.pending.erase h }

/-- Scheduling effect of a `gameLoop` invocation (fired from timeout
`fired`) whose `update` takes the game-over branch, traced from the source:
the timeout fires (leaves the pending set); `update` calls `handleGameOver`,
which calls `resetGame`; `resetGame` runs `clearTimeout(this.gameLoopTimeout)`
(clearing the saved handle, which has already fired) and then calls
`gameLoop` directly, whose first tick of the new session ends in
`this.gameLoopTimeout = setTimeout(...)`; then `resetGame`, `handleGameOver`
and `update` return into the *outer* `gameLoop` frame, which continues after
`this.update()` with `this.draw()` and a second
`this.gameLoopTimeout = setTimeout(...)`. -/
def fireGameOverTick (st : SchedState) (fired : Nat) : SchedState :=
  let stFired := { st with pending := st.pending.erase fired }
  let stCleared :=
    match stFired.gameLoopTimeout with
    | some h => schedClearTimeout stFired h
    | none => stFired
  let inner := schedSetTimeout stCleared
  let stInner := { inner.1 with gameLoopTimeout := some inner.2 }
  let outer := schedSetTimeout stInner
  { outer.1 with gameLoopTimeout := some outer.2 }

/-- The scheduler in its steady state between ticks: exactly one pending
timeout, whose id is held in `gameLoopTimeout`. -/
def schedSteady : SchedState :=
  { pending := [1], nextId := 2, gameLoopTimeout := some 1 }

/- Concrete states used to evaluate the tick function on sample inputs. -/

/-- Four-segment snake whose head, moving right, would enter the cell the
tail currently occupies; the apple is elsewhere, so absent an apple this tick
the tail would otherwise be vacated. -/
def gTail : GameState :=
  { snake := [⟨1, 1⟩, ⟨1, 2⟩, ⟨2, 2⟩, ⟨2, 1⟩], apple := ⟨5, 5⟩,
    direction := .right, nextDirection := .right,
    score := 0, highScore := 0, speed := 200 }

/-- Single-segment snake about to consume the apple directly ahead. -/
def gEat : GameState :=
  { snake := [⟨4, 1⟩], apple := ⟨5, 1⟩,
    direction := .right, nextDirection := .right,
    score := 0, highScore := 0, speed := 200 }

/-- The initial session state with the apple out of reach: a plain move. -/
def gMove : GameState :=
  { snake := [⟨3, 1⟩], apple := ⟨10, 5⟩,
    direction := .right, nextDirection := .right,
    score := 0, highScore := 0, speed := 200 }

/-- Snake at the left edge about to step into the wall. -/
def gWall : GameState :=
  { snake := [⟨0, 1⟩], apple := ⟨10, 5⟩,
    direction := .left, nextDirection := .left,
    score := 0, highScore := 0, speed := 200 }

/- Auxiliary lemmas about the body-membership test. -/

lemma point_beq_iff (a b : Point) : (a.x == b.x && a.y == b.y) = true ↔ a = b := by
  cases a; cases b
  simp [Point.mk.injEq]

lemma onBody_iff (body : List Point) (p : Point) :
    onBody body p = true ↔ p ∈ body := by
  simp only [onBody, List.any_eq_true, point_beq_iff]
  constructor
  · rintro ⟨seg, hseg, rfl⟩; exact hseg
  · intro hp; exact ⟨p, hp, rfl⟩

lemma onBody_eq_false_iff (body : List Point) (p : Point) :
    onBody body p = false ↔ p ∉ body := by
  rw [← Bool.not_eq_true, not_iff_not]
  exact onBody_iff body p

lemma placeApple_not_mem {snake draws : List Point} {p : Point}
    (h : placeApple snake draws = some p) : p ∉ snake := by
  have hp := List.find?_some h
  rw [Bool.not_eq_true'] at hp
  exact (onBody_eq_false_iff snake p).mp hp

/- Auxiliary lemmas about the speed sequence. -/

lemma minSpeed_eq : CONFIG.minSpeed = 50 := rfl

lemma speedDecrement_eq : CONFIG.speedDecrement = 5 := rfl

lemma increaseDifficulty_eq (s : Nat) :
    increaseDifficulty s = if 50 < s then s - 5 else s := rfl

lemma tickSpeed_inv (s : Nat) (b : Bool) (h1 : 50 ≤ s) (h2 : s % 5 = 0) :
    50 ≤ tickSpeed s b ∧ tickSpeed s b % 5 = 0 ∧ tickSpeed s b ≤ s := by
  cases b
  · exact ⟨h1, h2, le_rfl⟩
  · rw [show tickSpeed s true = increaseDifficulty s from rfl, increaseDifficulty_eq]
    split <;> omega

lemma speed_foldl_inv (ticks : List Bool) (s : Nat)
    (h1 : 50 ≤ s) (h2 : s % 5 = 0) :
    50 ≤ ticks.foldl tickSpeed s ∧ (ticks.foldl tickSpeed s) % 5 = 0 := by
  induction ticks generalizing s with
  | nil => exact ⟨h1, h2⟩
  | cons b ticks ih =>
    rw [List.foldl_cons]
    exact ih (tickSpeed s b) (tickSpeed_inv s b h1 h2).1 (tickSpeed_inv s b h1 h2).2.1

lemma speedAfter_inv (ticks : List Bool) :
    50 ≤ speedAfter ticks ∧ (speedAfter ticks) % 5 = 0 :=
  speed_foldl_inv ticks 200 (by decide) (by decide)

/- Auxiliary lemmas about the direction buffer. -/

lemma handleKey_eq (c p d : Direction) :
    handleKey c p d = if d = c.opposite then p else d := by
  cases c <;> cases d <;> simp [handleKey, Direction.opposite]

lemma foldl_handleKey_ne (c : Direction) (reqs : List Direction) (p : Direction)
    (hp : p ≠ c.opposite) : reqs.foldl (handleKey c) p ≠ c.opposite := by
  induction reqs generalizing p with
  | nil => exact hp
  | cons d reqs ih =>
    rw [List.foldl_cons, handleKey_eq]
    split
    · exact ih p hp
    · exact ih d (by assumption)

/- Branch lemmas for the tick function. -/

lemma update_over (W H : Int) (g : GameState) (draws : List Point)
    (hcond : (wallHit W H (prospectiveHead g) ||
      checkSelfCollision (prospectiveHead g) g.snake) = true) :
    update W H g draws = some (.over { g with direction := g.nextDirection }) := by
  simp only [update]
  rw [hcond, if_pos rfl]

lemma update_eat (W H : Int) (g : GameState) (draws : List Point) (a : Point)
    (hw : wallHit W H (prospectiveHead g) = false)
    (hs : checkSelfCollision (prospectiveHead g) g.snake = false)
    (ha : prospectiveHead g = g.apple)
    (hp : placeApple (prospectiveHead g :: g.snake) draws = some a) :
    update W H g draws = some (.cont (eatResult g a)) := by
  simp only [update]
  rw [hw, hs, if_neg (by decide : ¬((false || false) = true)), if_pos ha, hp]
  rfl

lemma update_stuck (W H : Int) (g : GameState) (draws : List Point)
    (hw : wallHit W H (prospectiveHead g) = false)
    (hs : checkSelfCollision (prospectiveHead g) g.snake = false)
    (ha : prospectiveHead g = g.apple)
    (hp : placeApple (prospectiveHead g :: g.snake) draws = none) :
    update W H g draws = none := by
  simp only [update]
  rw [hw, hs, if_neg (by decide : ¬((false || false) = true)), if_pos ha, hp]

lemma update_move (W H : Int) (g : GameState) (draws : List Point)
    (hw : wallHit W H (prospectiveHead g) = false)
    (hs : checkSelfCollision (prospectiveHead g) g.snake = false)
    (ha : prospectiveHead g ≠ g.apple) :
    update W H g draws = some (.cont (moveResult g)) := by
  simp only [update]
  rw [hw, hs, if_neg (by decide : ¬((false || false) = true)), if_neg ha]
  rfl

lemma update_cont_inv (W H : Int) (g : GameState) (draws : List Point) (g' : GameState)
    (h : update W H g draws = some (.cont g')) :
    wallHit W H (prospectiveHead g) = false ∧
    checkSelfCollision (prospectiveHead g) g.snake = false ∧
    ((prospectiveHead g = g.apple ∧
        ∃ a, placeApple (prospectiveHead g :: g.snake) draws = some a ∧
          g' = eatResult g a) ∨
     (prospectiveHead g ≠ g.apple ∧ g' = moveResult g)) := by
  cases hb : (wallHit W H (prospectiveHead g) || checkSelfCollision (prospectiveHead g) g.snake) with
  | true =>
    rw [update_over W H g draws hb] at h
    simp at h
  | false =>
    obtain ⟨hw, hs⟩ := Bool.or_eq_false_iff.mp hb
    refine ⟨hw, hs, ?_⟩
    by_cases happ : prospectiveHead g = g.apple
    · cases hpa : placeApple (prospectiveHead g :: g.snake) draws with
      | none =>
        rw [update_stuck W H g draws hw hs happ hpa] at h
        simp at h
      | some a =>
        rw [update_eat W H g draws a hw hs happ hpa] at h
        simp only [Option.some.injEq, TickOutcome.cont.injEq] at h
        exact Or.inl ⟨happ, a, rfl, h.symm⟩
    · rw [update_move W H g draws hw hs happ] at h
      simp only [Option.some.injEq, TickOutcome.cont.injEq] at h
      exact Or.inr ⟨happ, h.symm⟩

/-- C3: on every apple consumption the difficulty update maps the current
session speed to `max minSpeed (speed - speedDecrement)`; the speed is
non-increasing tick-over-tick and never falls below `minSpeed`, for every
sequence of ticks starting from `initialSpeed`. -/
theorem speed_schedule_correct (ticks : List Bool) (b : Bool) :
    increaseDifficulty (speedAfter ticks) =
      max CONFIG.minSpeed (speedAfter ticks - CONFIG.speedDecrement) ∧
    speedAfter (ticks ++ [b]) ≤ speedAfter ticks ∧
    CONFIG.minSpeed ≤ speedAfter ticks := by
  obtain ⟨h1, h2⟩ := speedAfter_inv ticks
  refine ⟨?_, ?_, minSpeed_eq ▸ h1⟩
  · rw [increaseDifficulty_eq, minSpeed_eq, speedDecrement_eq, Nat.max_def]
    split <;> split <;> omega
  · rw [speedAfter, speedAfter, List.foldl_append, List.foldl_cons, List.foldl_nil]
    exact (tickSpeed_inv _ b h1 h2).2.2

/-- C4: a directional request is recorded as the pending direction only when
it is not the exact opposite of the committed direction (an opposite request
leaves the pending direction unchanged); among the requests arriving between
two commits the most recent legal one wins; hence the direction committed at
the next tick is never the exact opposite of the previously committed one. -/
theorem direction_buffer_correct :
    (∀ c p d : Direction, handleKey c p d = if d = c.opposite then p else d) ∧
    (∀ (c p : Direction) (reqs : List Direction) (d : Direction),
      d ≠ c.opposite → (reqs ++ [d]).foldl (handleKey c) p = d) ∧
    (∀ (c : Direction) (reqs : List Direction),
      reqs.foldl (handleKey c) c ≠ c.opposite) := by
  refine ⟨handleKey_eq, ?_, ?_⟩
  · intro c p reqs d hd
    rw [List.foldl_append, List.foldl_cons, List.foldl_nil, handleKey_eq]
    simp [hd]
  · intro c reqs
    apply foldl_handleKey_ne
    cases c <;> decide

theorem direction_buffer_correct_witness :
    (Direction.up ≠ Direction.right.opposite) ∧
    ([Direction.left, Direction.up].foldl (handleKey Direction.right)
      Direction.right = Direction.up) := by
  refine ⟨by decide, ?_⟩
  have h := direction_buffer_correct.2.1 Direction.right Direction.right
    [Direction.left] Direction.up (by decide)
  simpa using h

/-- C7: at game over the high score becomes the score, and is written to the
external store, exactly when the score strictly exceeds the current high
score; otherwise both the in-memory high score and the store are unchanged;
in every case the high score never decreases. -/
theorem highscore_ratchet (score highScore stored : Nat) :
    ((handleGameOver score highScore stored).2.2 = true ↔ highScore < score) ∧
    (handleGameOver score highScore stored).1 =
      (if highScore < score then score else highScore) ∧
    (handleGameOver score highScore stored).2.1 =
      (if highScore < score then score else stored) ∧
    highScore ≤ (handleGameOver score highScore stored).1 := by
  simp only [handleGameOver]
  split
  · simp_all
    omega
  · simp_all

/-- C1: in the Active state, the self-collision classification of a tick
evaluates the prospective head against the snake body as it stands before
any tail truncation for the tick, the current tail cell included: assuming
the wall test passes, the tick is classified fatal exactly when the
prospective head equals some element of that pre-truncation body, even on a
tick where the tail would otherwise be vacated. -/
theorem self_collision_pretruncation (W H : Int) (g : GameState) (draws : List Point)
    (hw : wallHit W H (prospectiveHead g) = false) :
    (checkSelfCollision (prospectiveHead g) g.snake = true ↔ prospectiveHead g ∈ g.snake) ∧
    (update W H g draws = some (.over { g with direction := g.nextDirection }) ↔
      prospectiveHead g ∈ g.snake) := by
  refine ⟨onBody_iff g.snake (prospectiveHead g), ?_, ?_⟩
  · intro hupd
    by_contra hm
    have hs : checkSelfCollision (prospectiveHead g) g.snake = false :=
      (onBody_eq_false_iff g.snake (prospectiveHead g)).mpr hm
    by_cases happ : prospectiveHead g = g.apple
    · cases hpa : placeApple (prospectiveHead g :: g.snake) draws with
      | none => rw [update_stuck W H g draws hw hs happ hpa] at hupd; simp at hupd
      | some a => rw [update_eat W H g draws a hw hs happ hpa] at hupd; simp at hupd
    · rw [update_move W H g draws hw hs happ] at hupd
      simp at hupd
  · intro hm
    have hc : checkSelfCollision (prospectiveHead g) g.snake = true :=
      (onBody_iff g.snake (prospectiveHead g)).mpr hm
    exact update_over W H g draws (by rw [hc, Bool.or_true])

theorem self_collision_pretruncation_witness :
    update 20 20 gTail [] = some (.over { gTail with direction := Direction.right }) :=
  (self_collision_pretruncation 20 20 gTail [] (by decide)).2.mpr (by decide)

/-- C2: contrary to the requirement that a game-over reset cancel the
pending tick so that at most one scheduled tick ever exists, firing the
single pending timeout on a game-over tick leaves TWO pending timeouts:
`resetGame`'s `clearTimeout` only clears the already-fired saved handle,
its direct `gameLoop` call schedules one timeout, and the outer `gameLoop`
frame schedules a second one after `update` returns. -/
theorem gameloop_double_schedule :
    (fireGameOverTick schedSteady 1).pending = [2, 3] ∧
    ¬ (fireGameOverTick schedSteady 1).pending.length ≤ 1 := by
  decide

/-- C5: a tick whose prospective head is classified `none` and equals the
apple position prepends the head without removing the tail (length grows by
exactly 1), increments the score by exactly 1, relocates the apple via
`placeApple`, and updates the speed via `increaseDifficulty`, all on that
same tick. -/
theorem apple_growth (W H : Int) (g : GameState) (draws : List Point) (a : Point)
    (hw : wallHit W H (prospectiveHead g) = false)
    (hs : checkSelfCollision (prospectiveHead g) g.snake = false)
    (ha : prospectiveHead g = g.apple)
    (hp : placeApple (prospectiveHead g :: g.snake) draws = some a) :
    update W H g draws = some (.cont (eatResult g a)) ∧
    (eatResult g a).snake = prospectiveHead g :: g.snake ∧
    (eatResult g a).snake.length = g.snake.length + 1 ∧
    (eatResult g a).score = g.score + 1 ∧
    (eatResult g a).apple = a ∧
    (eatResult g a).speed = increaseDifficulty g.speed := by
  exact ⟨update_eat W H g draws a hw hs ha hp, rfl, by simp [eatResult], rfl, rfl, rfl⟩

theorem apple_growth_witness :
    update 20 20 gEat [⟨4, 1⟩, ⟨7, 7⟩] = some (.cont (eatResult gEat ⟨7, 7⟩)) ∧
    (eatResult gEat ⟨7, 7⟩).snake = prospectiveHead gEat :: gEat.snake ∧
    (eatResult gEat ⟨7, 7⟩).snake.length = gEat.snake.length + 1 ∧
    (eatResult gEat ⟨7, 7⟩).score = gEat.score + 1 ∧
    (eatResult gEat ⟨7, 7⟩).apple = ⟨7, 7⟩ ∧
    (eatResult gEat ⟨7, 7⟩).speed = increaseDifficulty gEat.speed :=
  apple_growth 20 20 gEat [⟨4, 1⟩, ⟨7, 7⟩] ⟨7, 7⟩ (by decide) (by decide) (by decide)
    (by decide)

/-- C6: a tick whose prospective head is classified `none` and differs from
the apple position prepends the prospective head and removes exactly the
tail element, so the snake's length after the tick equals its length before
it, and the score is unchanged. -/
theorem move_length_conservation (W H : Int) (g : GameState) (draws : List Point)
    (hw : wallHit W H (prospectiveHead g) = false)
    (hs : checkSelfCollision (prospectiveHead g) g.snake = false)
    (ha : prospectiveHead g ≠ g.apple)
    (hne : g.snake ≠ []) :
    update W H g draws = some (.cont (moveResult g)) ∧
    (moveResult g).snake = prospectiveHead g :: g.snake.dropLast ∧
    (moveResult g).snake.length = g.snake.length ∧
    (moveResult g).score = g.score := by
  refine ⟨update_move W H g draws hw hs ha, ?_, by simp [moveResult], rfl⟩
  obtain ⟨y, l, hyl⟩ := List.exists_cons_of_ne_nil hne
  show (prospectiveHead g :: g.snake).dropLast = prospectiveHead g :: g.snake.dropLast
  rw [hyl, List.dropLast_cons₂]

theorem move_length_conservation_witness :
    update 20 20 gMove [] = some (.cont (moveResult gMove)) ∧
    (moveResult gMove).snake = prospectiveHead gMove :: gMove.snake.dropLast ∧
    (moveResult gMove).snake.length = gMove.snake.length ∧
    (moveResult gMove).score = gMove.score :=
  move_length_conservation 20 20 gMove [] (by decide) (by decide) (by decide) (by decide)

/-- C8: the snake body is non-empty and duplicate-free: `resetGame`
establishes both (a single starting segment), and every completed tick
transition (`update` ending in `cont`) preserves both. -/
theorem snake_invariants :
    (∀ (hsc : Nat) (draws : List Point) (g0 : GameState),
      resetGame hsc draws = some g0 → g0.snake ≠ [] ∧ g0.snake.Nodup) ∧
    (∀ (W H : Int) (g : GameState) (draws : List Point) (g' : GameState),
      g.snake ≠ [] → g.snake.Nodup → update W H g draws = some (.cont g') →
      g'.snake ≠ [] ∧ g'.snake.Nodup) := by
  constructor
  · intro hsc draws g0 h
    simp only [resetGame] at h
    cases hpa : placeApple [⟨3, 1⟩] draws with
    | none => rw [hpa] at h; simp at h
    | some a =>
      rw [hpa] at h
      simp only [Option.some.injEq] at h
      rw [← h]
      exact ⟨by simp, by simp⟩
  · intro W H g draws g' hne hnd hupd
    obtain ⟨hw, hs, hcases⟩ := update_cont_inv W H g draws g' hupd
    have hnotmem : prospectiveHead g ∉ g.snake :=
      (onBody_eq_false_iff g.snake (prospectiveHead g)).mp hs
    rcases hcases with ⟨happ, a, hpa, rfl⟩ | ⟨happ, rfl⟩
    · refine ⟨?_, ?_⟩
      · show prospectiveHead g :: g.snake ≠ []
        simp
      · show (prospectiveHead g :: g.snake).Nodup
        exact List.nodup_cons.mpr ⟨hnotmem, hnd⟩
    · constructor
      · show (prospectiveHead g :: g.snake).dropLast ≠ []
        have hpos : 0 < g.snake.length := List.length_pos.mpr hne
        exact List.length_pos.mp (by rw [List.length_dropLast_cons]; exact hpos)
      · show ((prospectiveHead g :: g.snake).dropLast).Nodup
        exact ((List.dropLast_sublist _).nodup (List.nodup_cons.mpr ⟨hnotmem, hnd⟩))

theorem snake_invariants_witness :
    (moveResult gMove).snake ≠ [] ∧ (moveResult gMove).snake.Nodup :=
  snake_invariants.2 20 20 gMove [] (moveResult gMove)
    (by decide) (by decide) (by decide)

/-- C9: whenever the rejection-sampling loop of `placeApple` returns, the
apple position it produces is not an element of the body it was given; and
a completed tick keeps the apple distinct from every snake segment. -/
theorem apple_placement_correct :
    (∀ (body draws : List Point) (p : Point), placeApple body draws = some p → p ∉ body) ∧
    (∀ (W H : Int) (g : GameState) (draws : List Point) (g' : GameState),
      g.apple ∉ g.snake → update W H g draws = some (.cont g') →
      g'.apple ∉ g'.snake) := by
  constructor
  · intro body draws p h
    exact placeApple_not_mem h
  · intro W H g draws g' hap hupd
    obtain ⟨hw, hs, hcases⟩ := update_cont_inv W H g draws g' hupd
    rcases hcases with ⟨happ, a, hpa, rfl⟩ | ⟨happ, rfl⟩
    · show a ∉ prospectiveHead g :: g.snake
      exact placeApple_not_mem hpa
    · show g.apple ∉ (prospectiveHead g :: g.snake).dropLast
      intro hmem
      have hmem' : g.apple ∈ prospectiveHead g :: g.snake :=
        (List.dropLast_sublist _).subset hmem
      rcases List.mem_cons.mp hmem' with h1 | h1
      · exact happ h1.symm
      · exact hap h1

theorem apple_placement_correct_witness : (⟨7, 2⟩ : Point) ∉ [(⟨3, 1⟩ : Point)] :=
  apple_placement_correct.1 [⟨3, 1⟩] [⟨3, 1⟩, ⟨7, 2⟩] ⟨7, 2⟩ (by decide)

/-- C10: on a tick classified `wall` or `self`, the game-over branch is
taken with the snake body, apple position, score, high score and speed
exactly as they were at the start of the tick; the only mutation performed
before game-over handling is committing the pending direction. -/
theorem gameover_sees_pretick_state (W H : Int) (g : GameState) (draws : List Point)
    (h : wallHit W H (prospectiveHead g) = true ∨
      checkSelfCollision (prospectiveHead g) g.snake = true) :
    ∃ go : GameState, update W H g draws = some (.over go) ∧
      go.snake = g.snake ∧ go.apple = g.apple ∧ go.score = g.score ∧
      go.highScore = g.highScore ∧ go.speed = g.speed ∧
      go.direction = g.nextDirection ∧
      go = { g with direction := g.nextDirection } := by
  refine ⟨{ g with direction := g.nextDirection }, ?_, rfl, rfl, rfl, rfl, rfl, rfl, rfl⟩
  apply update_over
  rcases h with h | h <;> simp [h]

theorem gameover_sees_pretick_state_witness :
    ∃ go : GameState, update 20 20 gWall [] = some (.over go) ∧
      go.snake = gWall.snake ∧ go.apple = gWall.apple ∧ go.score = gWall.score ∧
      go.highScore = gWall.highScore ∧ go.speed = gWall.speed ∧
      go.direction = gWall.nextDirection ∧
      go = { gWall with direction := gWall.nextDirection } :=
  gameover_sees_pretick_state 20 20 gWall [] (Or.inl (by decide))

end Snake
